import Mathlib

/-!
Verification of the action protocol layer of a phone-driving agent
(`phone_agent/actions/handler.py`): the action parser (`parse_action`),
the coordinate mapper (`_convert_relative_to_absolute`), and the action
dispatcher (`ActionHandler.execute` with its per-kind handlers).

The Python code is shallowly embedded: Python values appearing in action
dictionaries become the inductive `PyVal`; dictionaries become ordered
association lists (`ActionDict`) with Python's insertion-order update
semantics; raised exceptions become `Except String`; calls into the
external ADB device facade (which the spec treats as an external
collaborator) become trace events (`DevCall`); injected callbacks
(confirmation gate, app-launch availability) become an explicit
environment (`Env`).  Machine arithmetic is embedded exactly (`Int`/`ℚ`
with truncation toward zero where the code truncates).
-/

/-- A scalar Python literal as it can occur inside a coordinate or
payload list: string, integer, float (embedded exactly as a rational),
boolean, `None`. -/
inductive PyPrim where
  | str (s : String)
  | int (n : Int)
  | float (q : ℚ)
  | bool (b : Bool)
  | pynone
deriving DecidableEq

/-- A Python value as it can occur in an action dictionary: scalars and
flat lists of scalars.  (The action protocol only ever carries flat
lists — coordinate pairs; deeper nesting is outside the modelled
fragment.) -/
inductive PyVal where
  | str (s : String)
  | int (n : Int)
  | float (q : ℚ)
  | bool (b : Bool)
  | pynone
  | list (l : List PyPrim)
deriving DecidableEq

/-- A Python dict with string keys, as an insertion-ordered association
list (Python dicts preserve insertion order; updating an existing key
keeps its position). -/
abbrev ActionDict := List (String × PyVal)

/-- `d.get(k)` on a Python dict. -/
def dictGet (d : ActionDict) (k : String) : Option PyVal :=
  match d with
  | [] => none
  | (k', v) :: t => if k' = k then some v else dictGet t k

/-- `k in d` on a Python dict. -/
def dictHasKey (d : ActionDict) (k : String) : Bool :=
  (dictGet d k).isSome

/-- `d[k] = v` on a Python dict: update in place if the key exists
(keeping its position), else append. -/
def dictSet (d : ActionDict) (k : String) (v : PyVal) : ActionDict :=
  match d with
  | [] => [(k, v)]
  | (k', v') :: t => if k' = k then (k, v) :: t else (k', v') :: dictSet t k v

/-- Python truthiness of a value (`if not element:` style tests). -/
def truthy : PyVal → Bool
  | .str s => !s.isEmpty
  | .int n => n != 0
  | .float q => q != 0
  | .bool b => b
  | .pynone => false
  | .list l => !l.isEmpty

/-! ### Character-list helpers

The Python code manipulates strings; the embedding works on `List Char`
(converted from Lean `String`s at the boundary) with hand-rolled helpers
mirroring the Python string methods used by the source. -/

/-- Whitespace for Python's `str.strip` / `str.split` (ASCII subset). -/
def isWsChar (c : Char) : Bool :=
  c = ' ' || c = '\t' || c = '\n' || c = '\r' || c = '\x0b' || c = '\x0c'

/-- ASCII decimal digit test. -/
def isDig (c : Char) : Bool :=
  48 ≤ c.toNat && c.toNat ≤ 57

/-- Numeric value of a decimal digit character. -/
def dval (c : Char) : Nat := c.toNat - 48

/-- Python `\w` word character (ASCII subset: letters, digits, underscore). -/
def isWordChar (c : Char) : Bool :=
  c.isAlpha || isDig c || c = '_'

/-- `str.strip()` on the left. -/
def trimLeft (s : List Char) : List Char := s.dropWhile isWsChar

/-- `str.strip()` on both ends. -/
def trimBoth (s : List Char) : List Char :=
  ((trimLeft s).reverse.dropWhile isWsChar).reverse

/-- `str.split(sep)` for a one-character separator. -/
def splitOnChar (sep : Char) : List Char → List (List Char)
  | [] => [[]]
  | c :: rest =>
    match splitOnChar sep rest with
    | [] => [[c]]
    | x :: xs => if c = sep then [] :: x :: xs else (c :: x) :: xs

/-- `str.startswith(p)`. -/
def startsWithL (p s : List Char) : Bool :=
  match p, s with
  | [], _ => true
  | _ :: _, [] => false
  | a :: p', b :: s' => a = b && startsWithL p' s'

/-- `needle in haystack` substring containment. -/
def containsSeq (s pat : List Char) : Bool :=
  match s with
  | [] => startsWithL pat []
  | _ :: rest => startsWithL pat s || containsSeq rest pat

/-- `str.lower()` (ASCII letters only; CJK characters are unaffected by
Python's `lower` as well). -/
def lowerAscii (s : List Char) : List Char :=
  s.map fun c => if 65 ≤ c.toNat && c.toNat ≤ 90 then Char.ofNat (c.toNat + 32) else c

/-- `str.replace(pat, rep)` for a nonempty pattern `p0 :: ps`: replace
every non-overlapping leftmost occurrence.  The fuel is the input length
plus one; every step consumes at least one character, so the fuel never
runs out at call sites. -/
def replaceCore (p0 : Char) (ps rep : List Char) : Nat → List Char → List Char
  | 0, s => s
  | _ + 1, [] => []
  | f + 1, c :: rest =>
    if startsWithL (p0 :: ps) (c :: rest) then
      rep ++ replaceCore p0 ps rep f (rest.drop ps.length)
    else
      c :: replaceCore p0 ps rep f rest

/-- `str.replace(pat, rep)` (replaces all occurrences; empty pattern is
never used by the source). -/
def replaceSeq (s pat rep : List Char) : List Char :=
  match pat with
  | [] => s
  | p0 :: ps => replaceCore p0 ps rep (s.length + 1) s

/-- The `[` character (written via its code point). -/
def lbrackC : Char := Char.ofNat 91
/-- The `]` character. -/
def rbrackC : Char := Char.ofNat 93
/-- The `{` character. -/
def lbraceC : Char := Char.ofNat 123
/-- The `}` character. -/
def rbraceC : Char := Char.ofNat 125

/-- Decimal digits of a natural number, most significant first. -/
def decNat (n : Nat) : List Char :=
  if _h : n < 10 then [Nat.digitChar n]
  else decNat (n / 10) ++ [Nat.digitChar (n % 10)]
decreasing_by exact Nat.div_lt_self (by omega) (by omega)

/-- Decimal rendering of an integer (Python `str(int)`). -/
def decInt (n : Int) : List Char :=
  if n < 0 then '-' :: decNat (-n).toNat else decNat n.toNat

/-- Value of a list of decimal digit characters, most significant first. -/
def digitsVal (l : List Char) : Nat :=
  l.foldl (fun a c => 10 * a + dval c) 0

/-- Python `int(str)`: strip, optional sign, then one or more digits and
nothing else (digit-group underscores are not modelled). -/
def parsePyInt (s : List Char) : Option Int :=
  let t := trimBoth s
  let (neg, t) := match t with
    | '-' :: r => (true, r)
    | '+' :: r => (false, r)
    | r => (false, r)
  if t ≠ [] && t.all isDig then
    some (if neg then -(digitsVal t : Int) else (digitsVal t : Int))
  else none

/-- Python `float(str)` restricted to plain decimal notation
(`[+-]digits[.digits]`, also `.5` and `1.`): exponent/inf/nan forms are
not modelled (never produced by the parsing layer under study). -/
def parsePyFloat (s : List Char) : Option ℚ :=
  let t := trimBoth s
  let (neg, t) := match t with
    | '-' :: r => (true, r)
    | '+' :: r => (false, r)
    | r => (false, r)
  let ip := t.takeWhile isDig
  let rest := t.dropWhile isDig
  match rest with
  | [] =>
    if ip = [] then none
    else some (if neg then -(digitsVal ip : ℚ) else (digitsVal ip : ℚ))
  | '.' :: fp =>
    if fp.all isDig && (ip ≠ [] || fp ≠ []) then
      let q : ℚ := (digitsVal ip : ℚ) + (digitsVal fp : ℚ) / ((10 : ℚ) ^ fp.length)
      some (if neg then -q else q)
    else none
  | _ => none

/-! ### Rendering (Python `str()` / `repr()` as used in f-strings) -/

/-- `str(n)` for an integer. -/
def intStr (n : Int) : String := String.mk (decInt n)

/-- Rendering of a Python float for diagnostic messages.  (Python's
float formatting is not bit-modelled; the embedding renders the exact
rational.  No claim depends on float rendering.) -/
def ratRender (q : ℚ) : String :=
  if q.den = 1 then intStr q.num ++ ".0"
  else intStr q.num ++ "/" ++ String.mk (decNat q.den)

/-- `repr(p)` of a scalar, as it appears inside `str(list)`. -/
def primRepr : PyPrim → String
  | .str s => "'" ++ s ++ "'"
  | .int n => intStr n
  | .float q => ratRender q
  | .bool b => if b then "True" else "False"
  | .pynone => "None"

/-- `str(v)` as used by f-string interpolation in the handler's
diagnostic messages. -/
def pyStr : PyVal → String
  | .str s => s
  | .int n => intStr n
  | .float q => ratRender q
  | .bool b => if b then "True" else "False"
  | .pynone => "None"
  | .list l => "[" ++ String.intercalate ", " (l.map primRepr) ++ "]"

/-- `str(v)` where `v` may be absent (`None` when a `dict.get` missed). -/
def pyStrOpt : Option PyVal → String
  | none => "None"
  | some v => pyStr v

/-! ### JSON decoding (`json.loads`)

The source calls the Python standard library's `json.loads` in two
places: to decode a textual coordinate literal such as `"[285, 82]"`,
and to decode JSON-like action objects.  The embedding implements the
JSON grammar fragment those call sites can meet: scalars, flat arrays
of scalars, and one top-level object whose values are scalars or flat
arrays.  Nested containers are mapped to a decode error; in the source
every such value also ends in an exception on the paths under study
(non-list elements fail the element-shape check, non-dict top-level
values fail the subsequent dict operations), so the observable behavior
of the enclosing functions agrees. -/

/-- JSON whitespace. -/
def jsonWs (c : Char) : Bool := c = ' ' || c = '\t' || c = '\n' || c = '\r'

/-- Skip JSON whitespace. -/
def jsonSkip (s : List Char) : List Char := s.dropWhile jsonWs

/-- Hexadecimal digit value. -/
def hexVal (c : Char) : Option Nat :=
  if 48 ≤ c.toNat && c.toNat ≤ 57 then some (c.toNat - 48)
  else if 97 ≤ c.toNat && c.toNat ≤ 102 then some (c.toNat - 87)
  else if 65 ≤ c.toNat && c.toNat ≤ 70 then some (c.toNat - 55)
  else none

/-- Single-character JSON string escapes. -/
def jsonEscChar (c : Char) : Option Char :=
  if c = '"' then some '"'
  else if c = '\\' then some '\\'
  else if c = '/' then some '/'
  else if c = 'b' then some '\x08'
  else if c = 'f' then some '\x0c'
  else if c = 'n' then some '\n'
  else if c = 'r' then some '\r'
  else if c = 't' then some '\t'
  else none

/-- Body of a JSON string, after the opening quote; returns the decoded
characters and the remaining input after the closing quote. -/
def jsonStrBody : List Char → Except String (List Char × List Char)
  | [] => .error "json: unterminated string"
  | c :: rest =>
    if c = '"' then .ok ([], rest)
    else if c = '\\' then
      match rest with
      | [] => .error "json: unterminated escape"
      | e :: r2 =>
        if e = 'u' then
          match r2 with
          | a :: b :: c2 :: d :: r3 =>
            match hexVal a, hexVal b, hexVal c2, hexVal d with
            | some ha, some hb, some hc, some hd => do
              let (l, r4) ← jsonStrBody r3
              .ok (Char.ofNat (((ha * 16 + hb) * 16 + hc) * 16 + hd) :: l, r4)
            | _, _, _, _ => .error "json: invalid unicode escape"
          | _ => .error "json: invalid unicode escape"
        else
          match jsonEscChar e with
          | some ch => do
            let (l, r3) ← jsonStrBody r2
            .ok (ch :: l, r3)
          | none => .error "json: invalid escape"
    else do
      let (l, r2) ← jsonStrBody rest
      .ok (c :: l, r2)

/-- Exponent part of a JSON number applied to an already-decoded base. -/
def jsonExpPart (base : ℚ) (r : List Char) : Except String (PyPrim × List Char) :=
  let eneg : Bool := match r with | '-' :: _ => true | _ => false
  let r1 := match r with | '-' :: t => t | '+' :: t => t | t => t
  let es := r1.takeWhile isDig
  let r2 := r1.dropWhile isDig
  if es.isEmpty then .error "json: invalid exponent"
  else
    let e : Int := if eneg then -(digitsVal es : Int) else (digitsVal es : Int)
    .ok (.float (base * (10 : ℚ) ^ e), r2)

/-- A JSON number (integer or float, with optional fraction/exponent). -/
def jsonNum (s : List Char) : Except String (PyPrim × List Char) :=
  let neg : Bool := startsWithL ['-'] s
  let s1 := if neg then s.drop 1 else s
  let ds := s1.takeWhile isDig
  let r1 := s1.dropWhile isDig
  if ds.isEmpty then .error "json: invalid number"
  else
    let iv : Int := if neg then -(digitsVal ds : Int) else (digitsVal ds : Int)
    if startsWithL ['.'] r1 then
      let r2 := r1.drop 1
      let fs := r2.takeWhile isDig
      let r3 := r2.dropWhile isDig
      if fs.isEmpty then .error "json: invalid number"
      else
        let q0 : ℚ := (digitsVal ds : ℚ) + (digitsVal fs : ℚ) / (10 : ℚ) ^ fs.length
        let q : ℚ := if neg then -q0 else q0
        if startsWithL ['e'] r3 || startsWithL ['E'] r3 then jsonExpPart q (r3.drop 1)
        else .ok (.float q, r3)
    else if startsWithL ['e'] r1 || startsWithL ['E'] r1 then jsonExpPart (iv : ℚ) (r1.drop 1)
    else .ok (.int iv, r1)

/-- A scalar JSON value (no leading whitespace). -/
def jsonScalar (s : List Char) : Except String (PyPrim × List Char) :=
  match s with
  | [] => .error "json: unexpected end"
  | c :: rest =>
    if c = '"' then do
      let (l, r) ← jsonStrBody rest
      .ok (.str (String.mk l), r)
    else if c = 't' then
      if startsWithL "rue".data rest then .ok (.bool true, rest.drop 3)
      else .error "json: invalid literal"
    else if c = 'f' then
      if startsWithL "alse".data rest then .ok (.bool false, rest.drop 4)
      else .error "json: invalid literal"
    else if c = 'n' then
      if startsWithL "ull".data rest then .ok (.pynone, rest.drop 3)
      else .error "json: invalid literal"
    else if c = '-' || isDig c then jsonNum s
    else .error "json: unsupported value"

/-- Scalar conversion into the dictionary-value type. -/
def primToVal : PyPrim → PyVal
  | .str s => .str s
  | .int n => .int n
  | .float q => .float q
  | .bool b => .bool b
  | .pynone => .pynone

/-- Elements of a JSON array (first element not yet consumed).  The fuel
is the length of the remaining input plus one; every iteration consumes
at least one character, so the fuel never runs out at call sites. -/
def jsonArrElems : Nat → List Char → List PyPrim → Except String (PyVal × List Char)
  | 0, _, _ => .error "json: out of fuel"
  | f + 1, s, acc => do
    let (v, r1) ← jsonScalar s
    let r2 := jsonSkip r1
    match r2 with
    | c :: r3 =>
      if c = ',' then jsonArrElems f (jsonSkip r3) (acc ++ [v])
      else if c = rbrackC then .ok (.list (acc ++ [v]), r3)
      else .error "json: expected comma or close bracket"
    | [] => .error "json: unterminated array"

/-- A JSON value: scalar or flat array. -/
def jsonValue (s : List Char) : Except String (PyVal × List Char) :=
  let t := jsonSkip s
  match t with
  | [] => .error "json: unexpected end"
  | c :: rest =>
    if c = lbrackC then
      let r := jsonSkip rest
      match r with
      | d :: r2 =>
        if d = rbrackC then .ok (.list [], r2)
        else jsonArrElems (r.length + 1) r []
      | [] => .error "json: unterminated array"
    else (jsonScalar t).map fun (p, r) => (primToVal p, r)

/-- `json.loads` for a full value (used on textual coordinate literals):
the whole input must be consumed. -/
def jsonLoadsValue (s : List Char) : Except String PyVal := do
  let (v, r) ← jsonValue s
  if (jsonSkip r).isEmpty then .ok v else .error "json: trailing data"

/-- Members of a JSON object (after the opening brace, first key not yet
consumed). -/
def jsonObjMembers : Nat → List Char → ActionDict → Except String (ActionDict × List Char)
  | 0, _, _ => .error "json: out of fuel"
  | f + 1, s, acc =>
    match jsonSkip s with
    | c :: rest =>
      if c = '"' then do
        let (k, r1) ← jsonStrBody rest
        match jsonSkip r1 with
        | ':' :: r3 => do
          let (v, r4) ← jsonValue r3
          let acc' := dictSet acc (String.mk k) v
          match jsonSkip r4 with
          | ',' :: r6 => jsonObjMembers f r6 acc'
          | d :: r6 =>
            if d = rbraceC then .ok (acc', r6)
            else .error "json: expected comma or close brace"
          | [] => .error "json: unterminated object"
        | _ => .error "json: expected colon"
      else .error "json: expected key"
    | [] => .error "json: unterminated object"

/-- `json.loads` restricted to a top-level object (used on JSON-like
action text).  A non-object top level is mapped to an error: in the
source, every non-dict `json.loads` result makes the enclosing
`parse_single_action` raise on the very next dict operation, so the two
behaviors agree observably. -/
def jsonLoadsDict (s : List Char) : Except String ActionDict :=
  match jsonSkip s with
  | c :: rest =>
    if c = lbraceC then
      let r := jsonSkip rest
      match r with
      | d :: r2 =>
        if d = rbraceC then
          if (jsonSkip r2).isEmpty then .ok [] else .error "json: trailing data"
        else do
          let (dic, r3) ← jsonObjMembers (r.length + 1) r []
          if (jsonSkip r3).isEmpty then .ok dic else .error "json: trailing data"
      | [] => .error "json: unterminated object"
    else .error "json: top-level value is not an object"
  | [] => .error "json: empty input"

/-! ### The eval-based call decoding

`parse_single_action` hands `do(...)`/`finish(...)` text to Python's
`eval`, in whose scope the module-level helpers
`do(**kwargs)`/`finish(**kwargs)` build the action dict and attach the
`_metadata` discriminator. -/

/-- Body of a Python string literal with quote character `q`, after the
opening quote.  Handles the common escapes; an unrecognized escape keeps
the backslash, as Python does. -/
def pyStrBody (q : Char) : List Char → Except String (List Char × List Char)
  | [] => .error "eval: unterminated string"
  | c :: rest =>
    if c = q then .ok ([], rest)
    else if c = '\\' then
      match rest with
      | [] => .error "eval: unterminated escape"
      | e :: r2 =>
        let mapped : List Char :=
          if e = 'n' then ['\n']
          else if e = 't' then ['\t']
          else if e = 'r' then ['\r']
          else if e = '\\' then ['\\']
          else if e = '\'' then ['\'']
          else if e = '"' then ['"']
          else ['\\', e]
        do
          let (l, r3) ← pyStrBody q r2
          .ok (mapped ++ l, r3)
    else do
      let (l, r2) ← pyStrBody q rest
      .ok (c :: l, r2)

/-- A Python numeric literal (with optional unary minus), as `eval`
would produce: `5`, `-5`, `5.`, `.5`, `1.5`, `1e3`. -/
def pyNumLit (s : List Char) : Except String (PyPrim × List Char) :=
  let neg : Bool := match s with | '-' :: _ => true | _ => false
  let s1 := match s with | '-' :: r => trimLeft r | _ => s
  let ds := s1.takeWhile isDig
  let r1 := s1.dropWhile isDig
  match r1 with
  | '.' :: r2 =>
    let fs := r2.takeWhile isDig
    let r3 := r2.dropWhile isDig
    if ds.isEmpty && fs.isEmpty then .error "eval: invalid number"
    else
      let q0 : ℚ := (digitsVal ds : ℚ) + (digitsVal fs : ℚ) / (10 : ℚ) ^ fs.length
      let q : ℚ := if neg then -q0 else q0
      match r3 with
      | 'e' :: r4 => jsonExpPart q r4
      | 'E' :: r4 => jsonExpPart q r4
      | _ => .ok (.float q, r3)
  | 'e' :: r4 =>
    if ds.isEmpty then .error "eval: invalid number"
    else jsonExpPart (if neg then -(digitsVal ds : ℚ) else (digitsVal ds : ℚ)) r4
  | 'E' :: r4 =>
    if ds.isEmpty then .error "eval: invalid number"
    else jsonExpPart (if neg then -(digitsVal ds : ℚ) else (digitsVal ds : ℚ)) r4
  | _ =>
    if ds.isEmpty then .error "eval: invalid number"
    else .ok (.int (if neg then -(digitsVal ds : Int) else (digitsVal ds : Int)), r1)

/-- A scalar Python literal (no leading whitespace). -/
def pyScalar (s : List Char) : Except String (PyPrim × List Char) :=
  match s with
  | [] => .error "eval: unexpected end"
  | c :: rest =>
    if c = '\'' || c = '"' then
      (pyStrBody c rest).map fun (l, r) => (.str (String.mk l), r)
    else if startsWithL "True".data s then .ok (.bool true, s.drop 4)
    else if startsWithL "False".data s then .ok (.bool false, s.drop 5)
    else if startsWithL "None".data s then .ok (.pynone, s.drop 4)
    else if c = '-' || c = '.' || isDig c then pyNumLit s
    else .error "eval: unsupported expression"

/-- Elements of a Python list literal (first element not yet consumed;
trailing comma allowed).  Fuel as in `jsonArrElems`. -/
def pyListElems : Nat → List Char → List PyPrim → Except String (PyVal × List Char)
  | 0, _, _ => .error "eval: out of fuel"
  | f + 1, s, acc => do
    let (v, r1) ← pyScalar (trimLeft s)
    let r2 := trimLeft r1
    match r2 with
    | c :: r3 =>
      if c = ',' then
        let r4 := trimLeft r3
        match r4 with
        | d :: r5 =>
          if d = rbrackC then .ok (.list (acc ++ [v]), r5)
          else pyListElems f r4 (acc ++ [v])
        | [] => .error "eval: unterminated list"
      else if c = rbrackC then .ok (.list (acc ++ [v]), r3)
      else .error "eval: expected comma or close bracket"
    | [] => .error "eval: unterminated list"

/-- A Python literal value: scalar or flat list of scalars. -/
def pyValue (s : List Char) : Except String (PyVal × List Char) :=
  let t := trimLeft s
  match t with
  | [] => .error "eval: unexpected end"
  | c :: rest =>
    if c = lbrackC then
      let r := trimLeft rest
      match r with
      | d :: r2 =>
        if d = rbrackC then .ok (.list [], r2)
        else pyListElems (r.length + 1) r []
      | [] => .error "eval: unterminated list"
    else (pyScalar t).map fun (p, r) => (primToVal p, r)

/-- The keyword arguments of a `do(...)`/`finish(...)` call, after the
opening parenthesis.  A repeated keyword is a Python syntax error. -/
def evalArgs : Nat → List Char → ActionDict → Except String (ActionDict × List Char)
  | 0, _, _ => .error "eval: out of fuel"
  | f + 1, s, acc =>
    let t := trimLeft s
    match t with
    | [] => .error "eval: unterminated call"
    | c :: rest =>
      if c = ')' then .ok (acc, rest)
      else if c.isAlpha || c = '_' then
        let k := t.takeWhile isWordChar
        let r1 := trimLeft (t.dropWhile isWordChar)
        match r1 with
        | '=' :: r2 =>
          if dictHasKey acc (String.mk k) then .error "eval: keyword argument repeated"
          else do
            let (v, r3) ← pyValue r2
            let acc' := acc ++ [(String.mk k, v)]
            let r4 := trimLeft r3
            match r4 with
            | ',' :: r5 => evalArgs f r5 acc'
            | ')' :: r5 => .ok (acc', r5)
            | _ => .error "eval: expected comma or close paren"
        | _ => .error "eval: only keyword-literal arguments are modelled"
      else .error "eval: only keyword-literal arguments are modelled"

/-- Models Python `eval` as applied by `parse_single_action` to a
`do(...)`/`finish(...)` string: a call of the module's `do`/`finish`
helper with keyword arguments whose values are string/number/list
literals — the only form the surrounding parser intends to accept.  Any
other embedded expression is mapped to an error here; the source's
`eval` instead executes such text, which is the arbitrary-code-execution
surface recorded against the safe-parser claim. -/
def evalCall (s : List Char) : Except String ActionDict :=
  let t := trimLeft s
  let name := t.takeWhile isWordChar
  let r0 := trimLeft (t.dropWhile isWordChar)
  if name = "do".data || name = "finish".data then
    match r0 with
    | '(' :: r1 => do
      let (d, r2) ← evalArgs (r1.length + 1) r1 []
      if (trimBoth r2).isEmpty then
        .ok (dictSet d "_metadata" (.str (if name = "do".data then "do" else "finish")))
      else .error "eval: trailing data"
    | _ => .error "eval: not a call"
  else .error "eval: unknown name"

/-! ### Regex models used by `parse_single_action` -/

/-- Index of the last occurrence of a character. -/
def lastIdxOf (ch : Char) (l : List Char) : Option Nat :=
  match l.reverse.findIdx? (· = ch) with
  | some k => some (l.length - 1 - k)
  | none => none

/-- `re.search(r'(do\([^\n\r]*\))', s)` (and the `finish` analogue):
the leftmost occurrence of the literal prefix `p` that is followed by a
`)` on the same line, matched greedily to the last such `)`. -/
def reSearchCall (p : List Char) : List Char → Option (List Char)
  | [] => none
  | c :: rest =>
    if startsWithL p (c :: rest) then
      let tl := (c :: rest).drop p.length
      let line := tl.takeWhile fun ch => ch != '\n' && ch != '\r'
      match lastIdxOf ')' line with
      | some j => some (p ++ line.take (j + 1))
      | none => reSearchCall p rest
    else reSearchCall p rest

/-- `re.search(r'\{[^}]+\}', s)`: the leftmost brace-delimited run with
at least one non-brace character. -/
def braceSearch : List Char → Option (List Char)
  | [] => none
  | c :: rest =>
    if c = lbraceC then
      let run := rest.takeWhile (· != rbraceC)
      let r2 := rest.dropWhile (· != rbraceC)
      if run.isEmpty then braceSearch rest
      else
        match r2 with
        | d :: _ => if d = rbraceC then some (lbraceC :: run ++ [rbraceC]) else braceSearch rest
        | [] => braceSearch rest
    else braceSearch rest

/-- `re.sub(r'(\w+)=(\[[^\]]+\])', r'"\1": \2', s)`: quote bare keys
whose value is a bracketed list.  The fuel is the input length plus one;
every step consumes at least one character. -/
def subListVal : Nat → List Char → List Char
  | 0, s => s
  | _ + 1, [] => []
  | f + 1, c :: rest =>
    if isWordChar c then
      let k := (c :: rest).takeWhile isWordChar
      let r1 := (c :: rest).dropWhile isWordChar
      match r1 with
      | '=' :: b :: r3 =>
        if b = lbrackC then
          let inner := r3.takeWhile (· != rbrackC)
          let r4 := r3.dropWhile (· != rbrackC)
          if inner.isEmpty then c :: subListVal f rest
          else
            match r4 with
            | d :: r5 =>
              if d = rbrackC then
                '"' :: k ++ '"' :: ':' :: ' ' :: lbrackC :: inner ++ rbrackC :: subListVal f r5
              else c :: subListVal f rest
            | [] => c :: subListVal f rest
        else c :: subListVal f rest
      | _ => c :: subListVal f rest
    else c :: subListVal f rest

/-- `re.sub(r'(\w+)="([^"]+)"', r'"\1": "\2"', s)`: quote bare keys
with double-quoted values. -/
def subStrVal : Nat → List Char → List Char
  | 0, s => s
  | _ + 1, [] => []
  | f + 1, c :: rest =>
    if isWordChar c then
      let k := (c :: rest).takeWhile isWordChar
      let r1 := (c :: rest).dropWhile isWordChar
      match r1 with
      | '=' :: b :: r3 =>
        if b = '"' then
          let inner := r3.takeWhile (· != '"')
          let r4 := r3.dropWhile (· != '"')
          if inner.isEmpty then c :: subStrVal f rest
          else
            match r4 with
            | d :: r5 =>
              if d = '"' then
                '"' :: k ++ '"' :: ':' :: ' ' :: '"' :: inner ++ '"' :: subStrVal f r5
              else c :: subStrVal f rest
            | [] => c :: subStrVal f rest
        else c :: subStrVal f rest
      | _ => c :: subStrVal f rest
    else c :: subStrVal f rest

/-- A character allowed in a bare (unbracketed, unquoted) value:
`[^,}\s\[]`. -/
def isBareValChar (c : Char) : Bool :=
  !(c = ',' || c = rbraceC || isWsChar c || c = lbrackC)

/-- `re.sub(r'(\w+)=([^,}\s\[]+)', r'"\1": "\2"', s)`: quote bare keys
and bare values (every bare value becomes a string). -/
def subBareVal : Nat → List Char → List Char
  | 0, s => s
  | _ + 1, [] => []
  | f + 1, c :: rest =>
    if isWordChar c then
      let k := (c :: rest).takeWhile isWordChar
      let r1 := (c :: rest).dropWhile isWordChar
      match r1 with
      | '=' :: r2 =>
        let v := r2.takeWhile isBareValChar
        let r3 := r2.dropWhile isBareValChar
        if v.isEmpty then c :: subBareVal f rest
        else '"' :: k ++ '"' :: ':' :: ' ' :: '"' :: v ++ '"' :: subBareVal f r3
      | _ => c :: subBareVal f rest
    else c :: subBareVal f rest

/-- Python slice `s[1:-2]`. -/
def slice1m2 (l : List Char) : List Char := ((l.drop 1).dropLast).dropLast

/-- `parse_single_action(act_str)` — decode one candidate action string,
trying in order: (1) `eval` of a string beginning with
`do(`/`finish(`; (2) `eval` of a regex-extracted embedded
`do(...)`/`finish(...)`; (3) the degenerate `finish(message=...)` strip;
(4) brace-delimited JSON-like extraction with key/value quoting followed
by `json.loads` and `_metadata` defaulting; (5) strict `json.loads`. -/
def parse_single_action (s0 : List Char) : Except String ActionDict :=
  let act := trimBoth s0
  if startsWithL "do(".data act || startsWithL "finish(".data act then
    evalCall act
  else
    match reSearchCall "do(".data act with
    | some g => evalCall g
    | none =>
      match reSearchCall "finish(".data act with
      | some g => evalCall g
      | none =>
        if startsWithL "finish".data act then
          .ok [("_metadata", .str "finish"),
               ("message",
                .str (String.mk (slice1m2 (trimBoth (replaceSeq act "finish(message=".data [])))))]
        else
          if containsSeq act [lbraceC] && containsSeq act [rbraceC] then
            match braceSearch act with
            | some ds0 =>
              let ds1 := subListVal (ds0.length + 1) ds0
              let ds2 := subStrVal (ds1.length + 1) ds1
              let ds3 := subBareVal (ds2.length + 1) ds2
              do
                let a ← jsonLoadsDict ds3
                .ok (if dictHasKey a "_metadata" then a
                     else if dictHasKey a "action" then dictSet a "_metadata" (.str "do")
                     else dictSet a "_metadata" (.str "finish"))
            | none => do
              let a ← jsonLoadsDict act
              .ok (if dictHasKey a "_metadata" then a else dictSet a "_metadata" (.str "do"))
          else do
            let a ← jsonLoadsDict act
            .ok (if dictHasKey a "_metadata" then a else dictSet a "_metadata" (.str "do"))

/-! ### `parse_action` — the top-level parsing pipeline -/

/-- Template placeholder lines skipped by the line scan. -/
def placeholderLines : List (List Char) :=
  ["\x7baction\x7d".data, "\x7bthink\x7d".data, "<action>".data, "</action>".data,
   "<answer>".data]

/-- Strategy 1 — tag stripping: strip, then remove the known wrapper
tags in the source's order. -/
def cleanResponse (s : List Char) : List Char :=
  let r := trimBoth s
  let r := replaceSeq r "<|begin_of_box|>".data []
  let r := replaceSeq r "<|end_of_box|>".data []
  let r := replaceSeq r "\x7bthink\x7d".data []
  let r := replaceSeq r "\x7baction\x7d".data []
  let r := replaceSeq r "</s>".data []
  let r := replaceSeq r "<think>".data []
  let r := replaceSeq r "</think>".data []
  let r := replaceSeq r "<answer>".data []
  let r := replaceSeq r "</answer>".data []
  let r := replaceSeq r "answer>".data []
  let r := replaceSeq r "<tool_call>".data []
  r

/-- An explicit action line: call-style or inline action-object prefix. -/
def isActionLine (l : List Char) : Bool :=
  startsWithL "do(".data l || startsWithL "finish(".data l ||
  startsWithL "\x7baction=".data l || startsWithL "\x7b\"action\"".data l

/-- The stripped, non-empty, non-placeholder lines of the cleaned text
(the source's `valid_lines`). -/
def keptLines (r : List Char) : List (List Char) :=
  ((splitOnChar '\n' r).map trimBoth).filter
    fun l => !l.isEmpty && !(placeholderLines.contains l)

/-- Strategies 2–4: collect the per-line decodes, swallowing individual
failures — explicit action lines first; otherwise the `do(`/`finish(`
lines among all kept lines; otherwise the first kept line. -/
def collectParsed (r : List Char) : List ActionDict :=
  let ks := keptLines r
  let als := ks.filter isActionLine
  if !als.isEmpty then
    als.filterMap fun l => (parse_single_action l).toOption
  else if !ks.isEmpty then
    let direct := ks.filterMap fun l =>
      if startsWithL "do(".data l || startsWithL "finish(".data l then
        (parse_single_action l).toOption
      else none
    if direct.isEmpty then
      match ks with
      | [] => []
      | l0 :: _ =>
        match (parse_single_action l0).toOption with
        | some a => [a]
        | none => []
    else direct
  else []

/-- `re.search(r"(\d+)\s*秒", r)`: leftmost digit run followed by
optional whitespace and the CJK seconds word. -/
def findNumCJKSec : List Char → Option (List Char)
  | [] => none
  | c :: rest =>
    if isDig c then
      let run := (c :: rest).takeWhile isDig
      let r1 := (c :: rest).dropWhile isDig
      let r2 := r1.dropWhile isWsChar
      if startsWithL "秒".data r2 then some run else findNumCJKSec rest
    else findNumCJKSec rest

/-- `re.search(r"(\d+)\s*seconds?", r, re.IGNORECASE)`: leftmost digit
run followed by optional whitespace and `second` (case-insensitive; the
optional trailing `s` does not affect the captured group). -/
def findNumEngSec : List Char → Option (List Char)
  | [] => none
  | c :: rest =>
    if isDig c then
      let run := (c :: rest).takeWhile isDig
      let r1 := (c :: rest).dropWhile isDig
      let r2 := r1.dropWhile isWsChar
      if lowerAscii (r2.take 6) = "second".data then some run else findNumEngSec rest
    else findNumEngSec rest

/-- Strategy 5 trigger — wait/loading/refresh vocabulary scan of the
whole cleaned text. -/
def hasWaitKeyword (r : List Char) : Bool :=
  let lower := lowerAscii r
  containsSeq lower "wait".data || containsSeq r "等待".data ||
  containsSeq r "加载".data || containsSeq lower "loading".data ||
  containsSeq r "刷新".data

/-- Duration string synthesized by the implicit-wait heuristic. -/
def waitDuration (r : List Char) : List Char :=
  match findNumCJKSec r with
  | some ds => ds ++ " seconds".data
  | none =>
    match findNumEngSec r with
    | some ds => ds ++ " seconds".data
    | none => "2 seconds".data

/-- A parse result: a single action dict or an ordered list of them. -/
inductive ParsedResponse where
  | one (a : ActionDict)
  | many (l : List ActionDict)
deriving DecidableEq

/-- The return logic of `parse_action` on the cleaned text: a single
action or the ordered list of actions when the line strategies
collected any; otherwise the implicit-wait heuristic; otherwise the
raised `ValueError` (re-wrapped by the outer handler). -/
def parseReturn (r : List Char) : Except String ParsedResponse :=
  match collectParsed r with
  | [] =>
    if hasWaitKeyword r then
      .ok (.one [("_metadata", .str "do"), ("action", .str "Wait"),
                 ("duration", .str (String.mk (waitDuration r)))])
    else .error ("Failed to parse action: " ++ "无法解析动作格式: " ++ String.mk r)
  | [a] => .ok (.one a)
  | a :: b :: t => .ok (.many (a :: b :: t))

/-- `parse_action(response)`: clean the text, collect per-line decodes,
fall back to the implicit-wait heuristic when no strategy yielded an
action. -/
def parse_action (response : String) : Except String ParsedResponse :=
  parseReturn (cleanResponse response.data)

/-! ### The dispatcher (`ActionHandler`)

Device-facade calls (the `phone_agent.adb` primitives, external
collaborators per the spec) are recorded as trace events; the injected
confirmation gate and the launch-resolution outcome are an explicit
environment.  A handler's raised exception is an `Except.error`, which
`execute` catches at the dispatch boundary. -/

/-- One call into the device facade (or blocking primitive), in program
order. -/
inductive DevCall where
  | tap (x y : Int) (delay : Option ℚ)
  | double_tap (x y : Int)
  | long_press (x y : Int)
  | swipe (x1 y1 x2 y2 : Int)
  | launch_app (app : PyVal)
  | type_text (t : PyVal)
  | clear_text
  | detect_and_set_adb_keyboard
  | restore_keyboard
  | back
  | home
  | sleep (d : ℚ)
  | takeover (msg : PyVal)
deriving DecidableEq

/-- The dispatcher's injected dependencies: the confirmation gate
callback and whether `launch_app` resolves a given app name. -/
structure Env where
  confirm : PyVal → Bool
  launch_ok : PyVal → Bool

/-- Result of an action execution (`ActionResult` dataclass). -/
structure ActionResult where
  success : Bool
  should_finish : Bool
  message : Option PyVal := none
  requires_confirmation : Bool := false
deriving DecidableEq

/-- Type of a per-kind handler routine. -/
abbrev HandlerFn := Env → ActionDict → Int → Int → Except String (ActionResult × List DevCall)

/-- Truthiness of a `dict.get` result (`if not x:` where `x` may be
`None`). -/
def truthyOpt : Option PyVal → Bool
  | none => false
  | some v => truthy v

/-- `int(q / 1000 * scale)` evaluated exactly: the exact rational
`q / 1000 * scale` equals the (possibly unreduced) fraction
`(q.num * scale) / (q.den * 1000)`, and Python `int()` truncates toward
zero, which on a fraction with positive denominator is `Int.tdiv`. -/
def truncScale (q : ℚ) (scale : Int) : Int :=
  Int.tdiv (q.num * scale) ((q.den : Int) * 1000)

/-- Coercion of a list entry by Python `float(...)`: numbers and
booleans coerce, numeric strings parse, anything else raises
`ValueError`/`TypeError`. -/
def pyToFloat : PyPrim → Option ℚ
  | .int n => some (n : ℚ)
  | .float q => some q
  | .bool b => some (if b then 1 else 0)
  | .str s => parsePyFloat s.data
  | .pynone => none

/-- The degenerate textual fallback of the coordinate mapper: remove all
square brackets, split on commas, and parse each piece as an integer
(any failure raises). -/
def stripBracketParse (s : List Char) : Option (List Int) :=
  let cleaned := s.filter fun c => c != lbrackC && c != rbrackC
  let parts := splitOnChar ',' cleaned
  let vals := parts.map fun p => parsePyInt (trimBoth p)
  if vals.all Option.isSome then some (vals.filterMap id) else none

/-- `_convert_relative_to_absolute(element, screen_width, screen_height)`:
resolve a textual element literal (structured JSON decoding first, then
the strip-brackets fallback), require a sequence of length ≥ 2, coerce
both leading entries to numbers, and scale 0–1000-relative coordinates
to absolute pixels with truncation toward zero.  The source computes
`int(x_rel / 1000 * screen_width)` in floats; the embedding computes the
same expression exactly. -/
def _convert_relative_to_absolute (element : PyVal) (screen_width screen_height : Int) :
    Except String (Int × Int) :=
  let resolved : Except String PyVal :=
    match element with
    | .str s =>
      match jsonLoadsValue s.data with
      | .ok v => .ok v
      | .error _ =>
        match stripBracketParse s.data with
        | some ns => .ok (.list (ns.map PyPrim.int))
        | none => .error ("Invalid element format: " ++ s)
    | v => .ok v
  match resolved with
  | .error e => .error e
  | .ok v =>
    match v with
    | .list (a :: b :: _) =>
      match pyToFloat a, pyToFloat b with
      | some x_rel, some y_rel =>
        .ok (truncScale x_rel screen_width, truncScale y_rel screen_height)
      | _, _ => .error ("Element coordinates must be numbers, got " ++ pyStr v)
    | _ => .error ("Element must be a list of 2 integers, got " ++ pyStr v)

/-- `_handle_launch`: requires a truthy app name; records the
`launch_app` facade call; on resolution failure returns the non-fatal
manual-fallback message. -/
def _handle_launch : HandlerFn := fun env action _ _ =>
  match dictGet action "app" with
  | none => .ok (⟨false, false, some (.str "No app name specified"), false⟩, [])
  | some a =>
    if !truthy a then .ok (⟨false, false, some (.str "No app name specified"), false⟩, [])
    else if env.launch_ok a then .ok (⟨true, false, none, false⟩, [.launch_app a])
    else
      .ok (⟨false, false,
            some (.str ("App not found in config: " ++ pyStr a ++
              ". Please try to find it on the screen manually (Swipe/Tap).")), false⟩,
           [.launch_app a])

/-- `_handle_tap`: requires truthy element coordinates; converts them;
gates on the confirmation callback when a `message` key is present; taps
once, plus three compensating taps (down, right, left by 20px, each with
a 0.1s pacing delay) when the absolute `y` lies in the top 15% of the
screen.  The source's `y < height * 0.15` is float arithmetic; for
integer `y` and `height` the double rounding of `height * 0.15` never
flips the comparison against the exact rational (the threshold is a
multiple of 1/20, and when `3h/20` is an integer the product rounds to
exactly that integer), so the exact comparison is faithful. -/
def _handle_tap : HandlerFn := fun env action width height =>
  match dictGet action "element" with
  | none => .ok (⟨false, false, some (.str "No element coordinates"), false⟩, [])
  | some el =>
    if !truthy el then .ok (⟨false, false, some (.str "No element coordinates"), false⟩, [])
    else do
      let (x, y) ← _convert_relative_to_absolute el width height
      if dictHasKey action "message" &&
          !(env.confirm ((dictGet action "message").getD .pynone)) then
        .ok (⟨false, true, some (.str "User cancelled sensitive operation"), false⟩, [])
      else
        let extra : List DevCall :=
          -- `y < height * 0.15`, decided exactly: `0.15 = 3/20`.
          if 20 * y < 3 * height then
            [.tap x (y + 20) (some 0.1), .tap (x + 20) y (some 0.1), .tap (x - 20) y (some 0.1)]
          else []
        .ok (⟨true, false, none, false⟩, .tap x y none :: extra)

/-- `_handle_type`: keyboard switch, clear, type, restore, with a 1s
settle delay after each step. -/
def _handle_type : HandlerFn := fun _ action _ _ =>
  let text := (dictGet action "text").getD (.str "")
  .ok (⟨true, false, none, false⟩,
       [.detect_and_set_adb_keyboard, .sleep 1, .clear_text, .sleep 1,
        .type_text text, .sleep 1, .restore_keyboard, .sleep 1])

/-- `_handle_swipe`: requires truthy start and end coordinates. -/
def _handle_swipe : HandlerFn := fun _ action width height =>
  let start := dictGet action "start"
  let stop := dictGet action "end"
  if !truthyOpt start || !truthyOpt stop then
    .ok (⟨false, false, some (.str "Missing swipe coordinates"), false⟩, [])
  else do
    let (sx, sy) ← _convert_relative_to_absolute (start.getD .pynone) width height
    let (ex, ey) ← _convert_relative_to_absolute (stop.getD .pynone) width height
    .ok (⟨true, false, none, false⟩, [.swipe sx sy ex ey])

/-- `_handle_back`. -/
def _handle_back : HandlerFn := fun _ _ _ _ =>
  .ok (⟨true, false, none, false⟩, [.back])

/-- `_handle_home`. -/
def _handle_home : HandlerFn := fun _ _ _ _ =>
  .ok (⟨true, false, none, false⟩, [.home])

/-- `_handle_double_tap`: requires truthy element coordinates. -/
def _handle_double_tap : HandlerFn := fun _ action width height =>
  match dictGet action "element" with
  | none => .ok (⟨false, false, some (.str "No element coordinates"), false⟩, [])
  | some el =>
    if !truthy el then .ok (⟨false, false, some (.str "No element coordinates"), false⟩, [])
    else do
      let (x, y) ← _convert_relative_to_absolute el width height
      .ok (⟨true, false, none, false⟩, [.double_tap x y])

/-- `_handle_long_press`: requires truthy element coordinates. -/
def _handle_long_press : HandlerFn := fun _ action width height =>
  match dictGet action "element" with
  | none => .ok (⟨false, false, some (.str "No element coordinates"), false⟩, [])
  | some el =>
    if !truthy el then .ok (⟨false, false, some (.str "No element coordinates"), false⟩, [])
    else do
      let (x, y) ← _convert_relative_to_absolute el width height
      .ok (⟨true, false, none, false⟩, [.long_press x y])

/-- `_handle_wait`: parse `"<number> seconds"`, defaulting to 1 second
on a `ValueError`; a non-string duration raises an `AttributeError` at
`.replace`, caught only at the dispatch boundary. -/
def _handle_wait : HandlerFn := fun _ action _ _ =>
  match (dictGet action "duration").getD (.str "1 seconds") with
  | .str s =>
    let d : ℚ :=
      match parsePyFloat (trimBoth (replaceSeq s.data "seconds".data [])) with
      | some q => q
      | none => 1
    .ok (⟨true, false, none, false⟩, [.sleep d])
  | v => .error ("AttributeError: " ++ pyStr v ++ " has no attribute replace")

/-- `_handle_takeover`: invoke the takeover gate and succeed. -/
def _handle_takeover : HandlerFn := fun _ action _ _ =>
  let message := (dictGet action "message").getD (.str "User intervention required")
  .ok (⟨true, false, none, false⟩, [.takeover message])

/-- `_handle_note`: currently a no-op placeholder. -/
def _handle_note : HandlerFn := fun _ _ _ _ =>
  .ok (⟨true, false, none, false⟩, [])

/-- `_handle_call_api`: currently a no-op placeholder. -/
def _handle_call_api : HandlerFn := fun _ _ _ _ =>
  .ok (⟨true, false, none, false⟩, [])

/-- `_handle_interact`: succeeds, flagging that user interaction is
required. -/
def _handle_interact : HandlerFn := fun _ _ _ _ =>
  .ok (⟨true, false, some (.str "User interaction required"), false⟩, [])

/-- The handler table of `_get_handler`, in source order. -/
def handlers : List (String × HandlerFn) :=
  [("Launch", _handle_launch), ("Tap", _handle_tap), ("Type", _handle_type),
   ("Type_Name", _handle_type), ("Swipe", _handle_swipe), ("Back", _handle_back),
   ("Home", _handle_home), ("Double Tap", _handle_double_tap),
   ("Long Press", _handle_long_press), ("Wait", _handle_wait),
   ("Take_over", _handle_takeover), ("Note", _handle_note),
   ("Call_API", _handle_call_api), ("Interact", _handle_interact)]

/-- `_get_handler(action_name)`: dictionary lookup; any hashable
non-member key (including `None`) misses. -/
def _get_handler (name : Option PyVal) : Option HandlerFn :=
  match name with
  | some (.str n) => (handlers.find? fun kv => kv.1 = n).map Prod.snd
  | _ => none

/-- `ActionHandler.execute(action, screen_width, screen_height)`: branch
on the `_metadata` discriminator, look up the kind's handler, run it
inside the try/except that converts a raised failure into a non-fatal
`ActionResult`.  A top-level `Except.error` is an exception escaping
`execute` itself, which happens only for an unhashable `action` value
(`dict.get` on the handler table raises `TypeError` before the guarded
region is entered). -/
def execute (env : Env) (action : ActionDict) (screen_width screen_height : Int) :
    Except String (ActionResult × List DevCall) :=
  let action_type := dictGet action "_metadata"
  if action_type = some (.str "finish") then
    .ok (⟨true, true, dictGet action "message", false⟩, [])
  else if action_type ≠ some (.str "do") then
    .ok (⟨false, true, some (.str ("Unknown action type: " ++ pyStrOpt action_type)), false⟩, [])
  else
    let action_name := dictGet action "action"
    match action_name with
    | some (.list _) => .error "TypeError: unhashable type: list"
    | _ =>
      match _get_handler action_name with
      | none =>
        .ok (⟨false, false, some (.str ("Unknown action: " ++ pyStrOpt action_name)), false⟩, [])
      | some h =>
        match h env action screen_width screen_height with
        | .ok r => .ok r
        | .error e => .ok (⟨false, false, some (.str ("Action failed: " ++ e)), false⟩, [])

/-- The registered action-kind names (the keys of the handler table). -/
def registeredKinds : List String := handlers.map Prod.fst

/-- The bracketed textual encoding `"[x, y]"` of a coordinate pair. -/
def pointText (x y : Int) : String :=
  String.mk (lbrackC :: (decInt x ++ ',' :: ' ' :: (decInt y ++ [rbrackC])))

/-- A concrete environment whose confirmation gate approves everything
(used to instantiate universally quantified theorems). -/
def envYes : Env := { confirm := fun _ => true, launch_ok := fun _ => true }

/-- A concrete environment whose confirmation gate rejects everything. -/
def envNo : Env := { confirm := fun _ => false, launch_ok := fun _ => false }

/-! ### Digit-rendering lemmas

Road to the coordinate-mapper theorems: the JSON decoder recovers
exactly the integers that `decInt` renders. -/

theorem isDig_digitChar {d : Nat} (h : d < 10) : isDig (Nat.digitChar d) = true := by
  interval_cases d <;> rfl

theorem dval_digitChar {d : Nat} (h : d < 10) : dval (Nat.digitChar d) = d := by
  interval_cases d <;> rfl

theorem decNat_ne_nil (n : Nat) : decNat n ≠ [] := by
  rw [decNat]; split <;> simp

theorem mem_decNat_isDig (n : Nat) : ∀ c ∈ decNat n, isDig c = true := by
  induction n using Nat.strong_induction_on with
  | _ n ih =>
    rw [decNat]
    split
    · next h =>
      intro c hc
      simp only [List.mem_singleton] at hc
      exact hc ▸ isDig_digitChar h
    · next h =>
      intro c hc
      rcases List.mem_append.mp hc with h1 | h2
      · exact ih (n / 10) (Nat.div_lt_self (by omega) (by omega)) c h1
      · simp only [List.mem_singleton] at h2
        exact h2 ▸ isDig_digitChar (Nat.mod_lt _ (by omega))

theorem digitsVal_append_one (l : List Char) (c : Char) :
    digitsVal (l ++ [c]) = 10 * digitsVal l + dval c := by
  simp [digitsVal, List.foldl_append]

theorem digitsVal_decNat (n : Nat) : digitsVal (decNat n) = n := by
  induction n using Nat.strong_induction_on with
  | _ n ih =>
    rw [decNat]
    split
    · next h => simp [digitsVal, dval_digitChar h]
    · next h =>
      rw [digitsVal_append_one, ih (n / 10) (Nat.div_lt_self (by omega) (by omega)),
        dval_digitChar (Nat.mod_lt _ (by omega))]
      omega

theorem takeWhile_append_of_all {p : Char → Bool} :
    ∀ (l r : List Char), (∀ c ∈ l, p c = true) → (∀ c, r.head? = some c → p c = false) →
      (l ++ r).takeWhile p = l ∧ (l ++ r).dropWhile p = r
  | [], r, _, hr => by
    constructor
    · cases r with
      | nil => rfl
      | cons c t => simp [List.takeWhile_cons, hr c rfl]
    · cases r with
      | nil => rfl
      | cons c t => simp [List.dropWhile_cons, hr c rfl]
  | a :: l, r, hl, hr => by
    have ha : p a = true := hl a (List.mem_cons_self a l)
    have ih := takeWhile_append_of_all l r (fun c hc => hl c (List.mem_cons_of_mem a hc)) hr
    constructor
    · simp [List.takeWhile_cons, ha, ih.1]
    · simp [List.dropWhile_cons, ha, ih.2]

/-- A digit character is distinct from any concretely non-digit
character. -/
theorem isDig_ne {c : Char} (hc : isDig c = true) (ch : Char) (hch : isDig ch = false) :
    c ≠ ch := by
  intro h; rw [h, hch] at hc; exact Bool.false_ne_true hc

theorem jsonNum_decNat (m : Nat) (r : List Char)
    (hr : ∀ c, r.head? = some c → isDig c = false ∧ c ≠ '.' ∧ c ≠ 'e' ∧ c ≠ 'E') :
    jsonNum (decNat m ++ r) = .ok (.int (m : Int), r) := by
  obtain ⟨c, tl, hct⟩ : ∃ c tl, decNat m = c :: tl := by
    cases h : decNat m with
    | nil => exact absurd h (decNat_ne_nil m)
    | cons c tl => exact ⟨c, tl, rfl⟩
  have hcdig : isDig c = true :=
    mem_decNat_isDig m c (by rw [hct]; exact List.mem_cons_self c tl)
  have hsplit :=
    takeWhile_append_of_all (decNat m) r (mem_decNat_isDig m) (fun d hd => (hr d hd).1)
  have hnegc : ('-' = c) = False := by
    simp only [eq_iff_iff, iff_false]
    exact fun hh => isDig_ne hcdig '-' (by decide) hh.symm
  have h1 : startsWithL ['-'] (decNat m ++ r) = false := by
    rw [hct, List.cons_append]
    simp [startsWithL, hnegc]
  have hempty : (decNat m).isEmpty = false := by rw [hct]; rfl
  have hdot : startsWithL ['.'] r = false := by
    cases r with
    | nil => rfl
    | cons d t =>
      have hd : ('.' = d) = False := by
        simp only [eq_iff_iff, iff_false]
        exact fun hh => (hr d rfl).2.1 hh.symm
      simp [startsWithL, hd]
  have he : startsWithL ['e'] r = false := by
    cases r with
    | nil => rfl
    | cons d t =>
      have hd : ('e' = d) = False := by
        simp only [eq_iff_iff, iff_false]
        exact fun hh => (hr d rfl).2.2.1 hh.symm
      simp [startsWithL, hd]
  have hE : startsWithL ['E'] r = false := by
    cases r with
    | nil => rfl
    | cons d t =>
      have hd : ('E' = d) = False := by
        simp only [eq_iff_iff, iff_false]
        exact fun hh => (hr d rfl).2.2.2 hh.symm
      simp [startsWithL, hd]
  simp only [jsonNum, h1, Bool.false_eq_true, if_false, hsplit.1, hsplit.2, hempty, hdot, he,
    hE, Bool.or_self, digitsVal_decNat]

theorem jsonNum_decInt (x : Int) (r : List Char)
    (hr : ∀ c, r.head? = some c → isDig c = false ∧ c ≠ '.' ∧ c ≠ 'e' ∧ c ≠ 'E') :
    jsonNum (decInt x ++ r) = .ok (.int x, r) := by
  by_cases hx : x < 0
  · have hdec : decInt x = '-' :: decNat (-x).toNat := by simp [decInt, hx]
    have hsplit := takeWhile_append_of_all (decNat (-x).toNat) r (mem_decNat_isDig _)
      (fun d hd => (hr d hd).1)
    have hempty : (decNat (-x).toNat).isEmpty = false := by
      cases h : decNat (-x).toNat with
      | nil => exact absurd h (decNat_ne_nil _)
      | cons c tl => rfl
    have hdot : startsWithL ['.'] r = false := by
      cases r with
      | nil => rfl
      | cons d t =>
        have hd : ('.' = d) = False := by
          simp only [eq_iff_iff, iff_false]
          exact fun hh => (hr d rfl).2.1 hh.symm
        simp [startsWithL, hd]
    have he : startsWithL ['e'] r = false := by
      cases r with
      | nil => rfl
      | cons d t =>
        have hd : ('e' = d) = False := by
          simp only [eq_iff_iff, iff_false]
          exact fun hh => (hr d rfl).2.2.1 hh.symm
        simp [startsWithL, hd]
    have hE : startsWithL ['E'] r = false := by
      cases r with
      | nil => rfl
      | cons d t =>
        have hd : ('E' = d) = False := by
          simp only [eq_iff_iff, iff_false]
          exact fun hh => (hr d rfl).2.2.2 hh.symm
        simp [startsWithL, hd]
    have h1 : startsWithL ['-'] ('-' :: (decNat (-x).toNat ++ r)) = true := by
      simp [startsWithL]
    have hval : (((-x).toNat : Int)) = -x := Int.toNat_of_nonneg (by omega)
    rw [hdec, List.cons_append]
    simp only [jsonNum, h1, if_true, List.drop_succ_cons, List.drop_zero, hsplit.1, hsplit.2,
      hempty, hdot, he, hE, Bool.or_self, digitsVal_decNat, Bool.false_eq_true, if_false, hval]
    simp
  · have hdec : decInt x = decNat x.toNat := by simp [decInt, hx]
    rw [hdec, jsonNum_decNat x.toNat r hr, Int.toNat_of_nonneg (not_lt.mp hx)]

/-- The first character of a rendered integer is a digit or a minus
sign. -/
theorem decInt_head (x : Int) :
    ∃ c tl, decInt x = c :: tl ∧ (isDig c = true ∨ c = '-') := by
  by_cases hx : x < 0
  · exact ⟨'-', decNat (-x).toNat, by simp [decInt, hx], Or.inr rfl⟩
  · have hdec : decInt x = decNat x.toNat := by simp [decInt, hx]
    obtain ⟨c, tl, hct⟩ : ∃ c tl, decNat x.toNat = c :: tl := by
      cases h : decNat x.toNat with
      | nil => exact absurd h (decNat_ne_nil _)
      | cons c tl => exact ⟨c, tl, rfl⟩
    refine ⟨c, tl, hdec.trans hct, Or.inl ?_⟩
    exact mem_decNat_isDig _ c (by rw [hct]; exact List.mem_cons_self c tl)

theorem jsonScalar_decInt (x : Int) (r : List Char)
    (hr : ∀ c, r.head? = some c → isDig c = false ∧ c ≠ '.' ∧ c ≠ 'e' ∧ c ≠ 'E') :
    jsonScalar (decInt x ++ r) = .ok (.int x, r) := by
  obtain ⟨c, tl, hct, hc⟩ := decInt_head x
  have hq : (c = '"') = False := by
    simp only [eq_iff_iff, iff_false]
    rcases hc with hdig | rfl
    · exact isDig_ne hdig '"' (by decide)
    · decide
  have ht : (c = 't') = False := by
    simp only [eq_iff_iff, iff_false]
    rcases hc with hdig | rfl
    · exact isDig_ne hdig 't' (by decide)
    · decide
  have hf : (c = 'f') = False := by
    simp only [eq_iff_iff, iff_false]
    rcases hc with hdig | rfl
    · exact isDig_ne hdig 'f' (by decide)
    · decide
  have hn : (c = 'n') = False := by
    simp only [eq_iff_iff, iff_false]
    rcases hc with hdig | rfl
    · exact isDig_ne hdig 'n' (by decide)
    · decide
  have hnum : (c = '-' || isDig c) = true := by
    rcases hc with hdig | rfl
    · simp [hdig]
    · simp
  rw [hct, List.cons_append]
  simp only [jsonScalar, hq, ht, hf, hn, hnum, if_false, if_true]
  rw [← List.cons_append, ← hct, jsonNum_decInt x r hr]

/-- Skipping JSON whitespace leaves a non-whitespace-headed list
unchanged. -/
theorem jsonSkip_cons_of {c : Char} (l : List Char) (h : jsonWs c = false) :
    jsonSkip (c :: l) = c :: l := by
  simp [jsonSkip, List.dropWhile_cons, h]

/-- A digit or minus sign is not JSON whitespace. -/
theorem jsonWs_decHead {c : Char} (hc : isDig c = true ∨ c = '-') : jsonWs c = false := by
  rcases hc with hdig | rfl
  · have h1 : (c = ' ') = False := by
      simp only [eq_iff_iff, iff_false]; exact isDig_ne hdig ' ' (by decide)
    have h2 : (c = '\t') = False := by
      simp only [eq_iff_iff, iff_false]; exact isDig_ne hdig '\t' (by decide)
    have h3 : (c = '\n') = False := by
      simp only [eq_iff_iff, iff_false]; exact isDig_ne hdig '\n' (by decide)
    have h4 : (c = '\r') = False := by
      simp only [eq_iff_iff, iff_false]; exact isDig_ne hdig '\r' (by decide)
    simp [jsonWs, h1, h2, h3, h4]
  · decide

/-- Skipping JSON whitespace leaves a rendered-integer-headed list
unchanged. -/
theorem jsonSkip_decInt (x : Int) (r : List Char) :
    jsonSkip (decInt x ++ r) = decInt x ++ r := by
  obtain ⟨c, tl, hct, hc⟩ := decInt_head x
  rw [hct, List.cons_append, jsonSkip_cons_of _ (jsonWs_decHead hc)]

/-- Bind on a successful `Except` computation. -/
theorem except_ok_bind {α β : Type} (a : α) (f : α → Except String β) :
    (Except.ok a >>= f) = f a := rfl

/-- Bind on a failed `Except` computation. -/
theorem except_error_bind {α β : Type} (e : String) (f : α → Except String β) :
    ((Except.error e : Except String α) >>= f) = .error e := rfl

theorem jsonArrElems_point (f : Nat) (x y : Int) (acc : List PyPrim) :
    jsonArrElems (f + 2) (decInt x ++ ',' :: ' ' :: (decInt y ++ [rbrackC])) acc =
      .ok (.list (acc ++ [.int x, .int y]), []) := by
  have hr1 : ∀ c, (',' :: ' ' :: (decInt y ++ [rbrackC])).head? = some c →
      isDig c = false ∧ c ≠ '.' ∧ c ≠ 'e' ∧ c ≠ 'E' := by
    intro c hc
    simp only [List.head?_cons, Option.some.injEq] at hc
    subst hc
    exact ⟨by decide, by decide, by decide, by decide⟩
  have hr2 : ∀ c, ([rbrackC] : List Char).head? = some c →
      isDig c = false ∧ c ≠ '.' ∧ c ≠ 'e' ∧ c ≠ 'E' := by
    intro c hc
    simp only [List.head?_cons, Option.some.injEq] at hc
    subst hc
    exact ⟨by decide, by decide, by decide, by decide⟩
  have hs1 := jsonScalar_decInt x (',' :: ' ' :: (decInt y ++ [rbrackC])) hr1
  have hs2 := jsonScalar_decInt y [rbrackC] hr2
  have hskip2 : jsonSkip (' ' :: (decInt y ++ [rbrackC])) = decInt y ++ [rbrackC] := by
    have h0 : jsonSkip (' ' :: (decInt y ++ [rbrackC])) = jsonSkip (decInt y ++ [rbrackC]) := by
      simp [jsonSkip, List.dropWhile_cons, show jsonWs ' ' = true from by decide]
    rw [h0, jsonSkip_decInt]
  simp only [jsonArrElems, hs1, hs2, except_ok_bind,
    jsonSkip_cons_of _ (show jsonWs ',' = false by decide), hskip2,
    jsonSkip_cons_of _ (show jsonWs rbrackC = false by decide),
    show (rbrackC = ',') = False by decide, if_false,
    show (rbrackC = rbrackC) = True by simp, if_true, List.append_assoc, List.cons_append,
    List.nil_append]

theorem jsonValue_point (x y : Int) :
    jsonValue (lbrackC :: (decInt x ++ ',' :: ' ' :: (decInt y ++ [rbrackC]))) =
      .ok (.list [.int x, .int y], []) := by
  obtain ⟨c, tl, hct, hc⟩ := decInt_head x
  have hskip0 := jsonSkip_cons_of (decInt x ++ ',' :: ' ' :: (decInt y ++ [rbrackC]))
    (show jsonWs lbrackC = false by decide)
  have hskip1 := jsonSkip_decInt x (',' :: ' ' :: (decInt y ++ [rbrackC]))
  have hne : (c = rbrackC) = False := by
    simp only [eq_iff_iff, iff_false]
    rcases hc with hdig | rfl
    · exact isDig_ne hdig rbrackC (by decide)
    · decide
  have hlen : ∃ f, (decInt x ++ ',' :: ' ' :: (decInt y ++ [rbrackC])).length + 1 = f + 2 := by
    refine ⟨(decInt x ++ ',' :: ' ' :: (decInt y ++ [rbrackC])).length - 1, ?_⟩
    rw [hct]
    simp
  obtain ⟨f, hf⟩ := hlen
  simp only [jsonValue, hskip0, show (lbraceC = lbraceC) = True by simp,
    show (lbrackC = lbrackC) = True by simp, if_true, hskip1]
  rw [hct, List.cons_append]
  simp only [hne, if_false]
  rw [← List.cons_append, ← hct, hf, jsonArrElems_point f x y []]
  simp

theorem jsonLoadsValue_point (x y : Int) :
    jsonLoadsValue (lbrackC :: (decInt x ++ ',' :: ' ' :: (decInt y ++ [rbrackC]))) =
      .ok (.list [.int x, .int y]) := by
  unfold jsonLoadsValue
  rw [jsonValue_point x y]
  rfl

/-! ### Claim theorems — coordinate mapper -/

/-- The general scaling formula of the coordinate mapper on an integer
pair. -/
theorem convert_int_pair (a b u v : Int) :
    _convert_relative_to_absolute (.list [.int a, .int b]) u v =
      .ok ((a * u).tdiv 1000, (b * v).tdiv 1000) := by
  simp only [_convert_relative_to_absolute, pyToFloat, truncScale, Rat.num_intCast,
    Rat.den_intCast, Nat.cast_one, one_mul]

/-- C5: for every two-element integer relative point and every screen
size, coordinate conversion returns the relative point scaled by
`(width, height) / 1000` with truncation toward zero (`Int.tdiv`), with
no clamping of out-of-range inputs; in particular
`toAbsolute([500,500],1000,2000) = (500,1000)`,
`toAbsolute([0,0],w,h) = (0,0)`, and `toAbsolute([1000,1000],w,h) =
(w,h)`.  (The absence of clamping is exhibited by the unconditional
formula, which for out-of-range inputs yields coordinates beyond the
screen.) -/
theorem C5_coordinate_scaling (x y w h : Int) :
    _convert_relative_to_absolute (.list [.int x, .int y]) w h =
        .ok ((x * w).tdiv 1000, (y * h).tdiv 1000) ∧
    _convert_relative_to_absolute (.list [.int 500, .int 500]) 1000 2000 = .ok (500, 1000) ∧
    _convert_relative_to_absolute (.list [.int 0, .int 0]) w h = .ok (0, 0) ∧
    _convert_relative_to_absolute (.list [.int 1000, .int 1000]) w h = .ok (w, h) := by
  refine ⟨convert_int_pair x y w h, by rfl, ?_, ?_⟩
  · rw [convert_int_pair]
    simp
  · rw [convert_int_pair]
    have h1 : ((1000 : Int) * w).tdiv 1000 = w := Int.mul_tdiv_cancel_left w (by norm_num)
    have h2 : ((1000 : Int) * h).tdiv 1000 = h := Int.mul_tdiv_cancel_left h (by norm_num)
    rw [h1, h2]

/-- C6: for every two-integer point, converting the bracketed textual
encoding `"[x, y]"` yields exactly the same result as converting the
numeric list `[x, y]`, for every screen size; in particular
`toAbsolute("[10, 20]", 100, 100)` succeeds identically to
`toAbsolute([10,20], 100, 100)`. -/
theorem C6_textual_point_same_as_list (x y w h : Int) :
    _convert_relative_to_absolute (.str (pointText x y)) w h =
        _convert_relative_to_absolute (.list [.int x, .int y]) w h ∧
    _convert_relative_to_absolute (.str "[10, 20]") 100 100 =
        _convert_relative_to_absolute (.list [.int 10, .int 20]) 100 100 := by
  constructor
  · have hj : jsonLoadsValue (pointText x y).data = .ok (.list [.int x, .int y]) :=
      jsonLoadsValue_point x y
    simp only [_convert_relative_to_absolute, hj]
  · rfl

/-! ### Claim theorems — dispatcher -/

/-- A name outside the handler table has no handler. -/
theorem get_handler_none {n : String} (h : n ∉ registeredKinds) :
    _get_handler (some (.str n)) = none := by
  simp only [_get_handler]
  cases hf : List.find? (fun kv => kv.1 = n) handlers with
  | none => rfl
  | some kv =>
    exfalso
    have hmem := List.mem_of_find?_eq_some hf
    have hpred : kv.1 = n := by simpa using List.find?_some hf
    exact h (hpred ▸ List.mem_map_of_mem Prod.fst hmem)

/-- C2: dispatching an action dictionary whose discriminator is `"do"`
but whose action-kind name is not one of the registered kinds returns
`ActionResult(success=false, shouldFinish=false)` with an
`Unknown action` message, without raising, and issues no device calls. -/
theorem C2_unknown_kind_nonfatal (env : Env) (a : ActionDict) (w h : Int) (name : String)
    (hmd : dictGet a "_metadata" = some (.str "do"))
    (hname : dictGet a "action" = some (.str name))
    (hreg : name ∉ registeredKinds) :
    execute env a w h =
      .ok (⟨false, false, some (.str ("Unknown action: " ++ name)), false⟩, []) := by
  simp [execute, hmd, hname, get_handler_none hreg, pyStrOpt, pyStr]

/-- C2 witness: the unregistered kind `Fly`. -/
theorem C2_unknown_kind_nonfatal_witness :
    "Fly" ∉ registeredKinds ∧
    execute envYes [("_metadata", .str "do"), ("action", .str "Fly")] 100 200 =
      .ok (⟨false, false, some (.str "Unknown action: Fly"), false⟩, []) :=
  ⟨by decide,
   C2_unknown_kind_nonfatal envYes [("_metadata", .str "do"), ("action", .str "Fly")]
     100 200 "Fly" rfl rfl (by decide)⟩

/-- C10: dispatching an action dictionary whose discriminator is
neither `"do"` nor `"finish"` (including a missing discriminator)
returns `ActionResult(success=false, shouldFinish=true)` with an
`Unknown action type` message — terminating the agent loop, unlike an
unknown action-kind name. -/
theorem C10_unknown_discriminator_terminal (env : Env) (a : ActionDict) (w h : Int)
    (hf : dictGet a "_metadata" ≠ some (.str "finish"))
    (hd : dictGet a "_metadata" ≠ some (.str "do")) :
    execute env a w h =
      .ok (⟨false, true,
            some (.str ("Unknown action type: " ++ pyStrOpt (dictGet a "_metadata"))),
            false⟩, []) := by
  simp only [execute, if_neg hf, if_pos hd]

/-- C10 witness: an unrecognized discriminator and a missing one. -/
theorem C10_unknown_discriminator_terminal_witness :
    execute envYes [("_metadata", .str "later")] 5 5 =
      .ok (⟨false, true, some (.str "Unknown action type: later"), false⟩, []) ∧
    execute envYes [("action", .str "Tap")] 5 5 =
      .ok (⟨false, true, some (.str "Unknown action type: None"), false⟩, []) :=
  ⟨C10_unknown_discriminator_terminal envYes [("_metadata", .str "later")] 5 5
     (by decide) (by decide),
   C10_unknown_discriminator_terminal envYes [("action", .str "Tap")] 5 5
     (by decide) (by decide)⟩

/-- C8: when a registered kind's handler raises during dispatch,
`execute` catches the failure at the dispatch boundary and returns
`ActionResult(success=false, shouldFinish=false)` with a message
describing the failure (`Action failed: ...`), instead of propagating
it. -/
theorem C8_handler_failure_caught (env : Env) (a : ActionDict) (w h : Int) (name : String)
    (hfn : HandlerFn) (e : String)
    (hmd : dictGet a "_metadata" = some (.str "do"))
    (hname : dictGet a "action" = some (.str name))
    (hget : _get_handler (some (.str name)) = some hfn)
    (herr : hfn env a w h = .error e) :
    execute env a w h =
      .ok (⟨false, false, some (.str ("Action failed: " ++ e)), false⟩, []) := by
  simp [execute, hmd, hname, hget, herr]

/-- C8 witness: a Tap whose coordinate literal raises `ValueError`
inside the handler. -/
theorem C8_handler_failure_caught_witness :
    _get_handler (some (.str "Tap")) = some _handle_tap ∧
    _handle_tap envYes
      [("_metadata", .str "do"), ("action", .str "Tap"), ("element", .str "oops")]
      1000 2000 = .error "Invalid element format: oops" ∧
    execute envYes
      [("_metadata", .str "do"), ("action", .str "Tap"), ("element", .str "oops")]
      1000 2000 =
      .ok (⟨false, false, some (.str "Action failed: Invalid element format: oops"), false⟩,
           []) :=
  ⟨rfl, rfl,
   C8_handler_failure_caught envYes
     [("_metadata", .str "do"), ("action", .str "Tap"), ("element", .str "oops")]
     1000 2000 "Tap" _handle_tap "Invalid element format: oops" rfl rfl rfl rfl⟩

/-- C3: a Tap carrying a `message` key and valid coordinates, when the
confirmation gate returns false, yields
`ActionResult(success=false, shouldFinish=true)` with the cancellation
message and issues zero device calls (in particular zero taps). -/
theorem C3_confirmation_denied_aborts (env : Env) (a : ActionDict) (w h : Int)
    (el m : PyVal) (x y : Int)
    (hmd : dictGet a "_metadata" = some (.str "do"))
    (hname : dictGet a "action" = some (.str "Tap"))
    (helem : dictGet a "element" = some el)
    (htr : truthy el = true)
    (hconv : _convert_relative_to_absolute el w h = .ok (x, y))
    (hmsg : dictGet a "message" = some m)
    (hcb : env.confirm m = false) :
    execute env a w h =
      .ok (⟨false, true, some (.str "User cancelled sensitive operation"), false⟩, []) := by
  have htap : _handle_tap env a w h =
      .ok (⟨false, true, some (.str "User cancelled sensitive operation"), false⟩, []) := by
    simp [_handle_tap, helem, htr, hconv, except_ok_bind, dictHasKey, hmsg, hcb]
  simp [execute, hmd, hname, show _get_handler (some (.str "Tap")) = some _handle_tap from rfl,
    htap]

/-- C3 witness: a sensitive Tap rejected by the gate. -/
theorem C3_confirmation_denied_aborts_witness :
    envNo.confirm (.str "pay") = false ∧
    execute envNo
      [("_metadata", .str "do"), ("action", .str "Tap"),
       ("element", .list [.int 500, .int 500]), ("message", .str "pay")] 1000 2000 =
      .ok (⟨false, true, some (.str "User cancelled sensitive operation"), false⟩, []) :=
  ⟨rfl,
   C3_confirmation_denied_aborts envNo
     [("_metadata", .str "do"), ("action", .str "Tap"),
      ("element", .list [.int 500, .int 500]), ("message", .str "pay")]
     1000 2000 (.list [.int 500, .int 500]) (.str "pay") 500 1000
     rfl rfl rfl rfl rfl rfl rfl⟩

/-- C4: a successfully dispatched Tap (no message, or the gate
approved) whose absolute `y` satisfies `y < 0.15 * screenHeight` —
written `20 * y < 3 * height`, which is exactly the same inequality
since `0.15 = 3/20` — issues exactly three additional device taps
beyond the primary one, at 20px offsets down, right, and left of the
primary point; a Tap with `y ≥ 0.15 * screenHeight` issues exactly one
device tap. -/
theorem C4_compensating_taps (env : Env) (a : ActionDict) (w h : Int) (el : PyVal) (x y : Int)
    (hmd : dictGet a "_metadata" = some (.str "do"))
    (hname : dictGet a "action" = some (.str "Tap"))
    (helem : dictGet a "element" = some el)
    (htr : truthy el = true)
    (hconv : _convert_relative_to_absolute el w h = .ok (x, y))
    (hconf : ∀ m, dictGet a "message" = some m → env.confirm m = true) :
    (20 * y < 3 * h →
      execute env a w h = .ok (⟨true, false, none, false⟩,
        [.tap x y none, .tap x (y + 20) (some 0.1), .tap (x + 20) y (some 0.1),
         .tap (x - 20) y (some 0.1)])) ∧
    (¬(20 * y < 3 * h) →
      execute env a w h = .ok (⟨true, false, none, false⟩, [.tap x y none])) := by
  have hgate : (dictHasKey a "message" &&
      !(env.confirm ((dictGet a "message").getD .pynone))) = false := by
    cases hk : dictGet a "message" with
    | none => simp [dictHasKey, hk]
    | some m => simp [dictHasKey, hk, hconf m hk]
  have htap : _handle_tap env a w h = .ok (⟨true, false, none, false⟩,
      .tap x y none ::
        (if 20 * y < 3 * h then
          [.tap x (y + 20) (some 0.1), .tap (x + 20) y (some 0.1), .tap (x - 20) y (some 0.1)]
        else [])) := by
    simp [_handle_tap, helem, htr, hconv, except_ok_bind, hgate]
  constructor <;> intro hcond
  · simp [execute, hmd, hname, show _get_handler (some (.str "Tap")) = some _handle_tap from rfl,
      htap, if_pos hcond]
  · simp [execute, hmd, hname, show _get_handler (some (.str "Tap")) = some _handle_tap from rfl,
      htap, if_neg hcond]

/-- C4 witness: a Tap in the top 15% of the screen (four taps) and one
below it (a single tap). -/
theorem C4_compensating_taps_witness :
    (20 * (200 : Int) < 3 * 2000 ∧
      execute envYes
        [("_metadata", .str "do"), ("action", .str "Tap"),
         ("element", .list [.int 500, .int 100])] 1000 2000 =
        .ok (⟨true, false, none, false⟩,
          [.tap 500 200 none, .tap 500 220 (some 0.1), .tap 520 200 (some 0.1),
           .tap 480 200 (some 0.1)])) ∧
    (¬(20 * (1000 : Int) < 3 * 2000) ∧
      execute envYes
        [("_metadata", .str "do"), ("action", .str "Tap"),
         ("element", .list [.int 500, .int 500])] 1000 2000 =
        .ok (⟨true, false, none, false⟩, [.tap 500 1000 none])) :=
  ⟨⟨by decide,
    (C4_compensating_taps envYes
      [("_metadata", .str "do"), ("action", .str "Tap"),
       ("element", .list [.int 500, .int 100])] 1000 2000
      (.list [.int 500, .int 100]) 500 200 rfl rfl rfl rfl rfl
      (fun m hm => by simp [dictGet] at hm)).1 (by decide)⟩,
   ⟨by decide,
    (C4_compensating_taps envYes
      [("_metadata", .str "do"), ("action", .str "Tap"),
       ("element", .list [.int 500, .int 500])] 1000 2000
      (.list [.int 500, .int 500]) 500 1000 rfl rfl rfl rfl rfl
      (fun m hm => by simp [dictGet] at hm)).2 (by decide)⟩⟩

/-! ### Claim theorems — parser -/

/-- C1 counterexample: the claim requires an encoding of a
payload-carrying case that lacks its required field (a Tap with no
element) to be rejected by parse; in fact `parse_action` returns it as
a parsed action. -/
theorem C1_counterexample_parse_accepts_missing_payload :
    parse_action "do(action=\"Tap\")" =
      .ok (.one [("action", .str "Tap"), ("_metadata", .str "do")]) := by rfl

/-- C1 amended: an encoding of a payload-requiring case missing its
required field (e.g. a Tap with no element) is accepted by parse and
rejected at dispatch time instead, with the non-fatal
`ActionResult(success=false, shouldFinish=false)` and no device
calls. -/
theorem C1_amended_dispatch_time_rejection :
    parse_action "do(action=\"Tap\")" =
        .ok (.one [("action", .str "Tap"), ("_metadata", .str "do")]) ∧
    ∀ (env : Env) (a : ActionDict) (w h : Int),
      dictGet a "_metadata" = some (.str "do") →
      dictGet a "action" = some (.str "Tap") →
      (∀ v, dictGet a "element" = some v → truthy v = false) →
      execute env a w h =
        .ok (⟨false, false, some (.str "No element coordinates"), false⟩, []) := by
  refine ⟨by rfl, ?_⟩
  intro env a w h hmd hname helem
  have htap : _handle_tap env a w h =
      .ok (⟨false, false, some (.str "No element coordinates"), false⟩, []) := by
    cases hk : dictGet a "element" with
    | none => simp [_handle_tap, hk]
    | some v => simp [_handle_tap, hk, helem v hk]
  simp [execute, hmd, hname, show _get_handler (some (.str "Tap")) = some _handle_tap from rfl,
    htap]

/-- C1 amended witness: the parsed Tap-without-element dispatches to a
non-fatal failure. -/
theorem C1_amended_dispatch_time_rejection_witness :
    execute envYes [("action", .str "Tap"), ("_metadata", .str "do")] 100 200 =
      .ok (⟨false, false, some (.str "No element coordinates"), false⟩, []) :=
  C1_amended_dispatch_time_rejection.2 envYes
    [("action", .str "Tap"), ("_metadata", .str "do")] 100 200 rfl rfl
    (fun v hv => by simp [dictGet] at hv)

/-- C7: with no structured action anywhere in the text, parsing
`"页面正在加载中"` yields a Wait of the default 2 seconds and
`"等待 5 秒"` yields a Wait of 5 seconds; and whenever the earlier
strategies extracted at least one action, the result is exactly those
actions — the implicit-wait heuristic is never applied. -/
theorem C7_implicit_wait_heuristic :
    parse_action "页面正在加载中" =
        .ok (.one [("_metadata", .str "do"), ("action", .str "Wait"),
                   ("duration", .str "2 seconds")]) ∧
    parse_action "等待 5 秒" =
        .ok (.one [("_metadata", .str "do"), ("action", .str "Wait"),
                   ("duration", .str "5 seconds")]) ∧
    ∀ (response : String),
      collectParsed (cleanResponse response.data) ≠ [] →
      parse_action response =
        .ok (match collectParsed (cleanResponse response.data) with
             | [a] => .one a
             | l => .many l) := by
  refine ⟨by rfl, by rfl, ?_⟩
  intro response hne
  unfold parse_action parseReturn
  cases hc : collectParsed (cleanResponse response.data) with
  | nil => exact absurd hc hne
  | cons a t =>
    cases t with
    | nil => rfl
    | cons b t2 => rfl

/-- C7 witness: an explicit action line pre-empts the heuristic. -/
theorem C7_implicit_wait_heuristic_witness :
    collectParsed (cleanResponse ("do(action=\"Back\")").data) ≠ [] ∧
    parse_action "do(action=\"Back\")" =
      .ok (.one [("action", .str "Back"), ("_metadata", .str "do")]) := by
  have hcol : collectParsed (cleanResponse ("do(action=\"Back\")").data) =
      [[("action", .str "Back"), ("_metadata", .str "do")]] := by rfl
  refine ⟨by rw [hcol]; simp, ?_⟩
  exact (C7_implicit_wait_heuristic.2.2 "do(action=\"Back\")" (by rw [hcol]; simp)).trans
    (by rw [hcol])
